import Mathlib

/-
Shallow embedding of the editing core of the sage text editor
(src/editor.rs, src/out.rs): line buffer, cursor controller,
mutation operations, word motions, command interpreter.

Conventions of the embedding:
- Rust String raw contents are represented as `List Char` (`Raw`); the
  program's own cursor arithmetic indexes bytes and the operations the
  theorems exercise act on ASCII content, where byte and char indices
  coincide.
- Functions that can hit a Rust panic (index out of range, slice out of
  bounds, usize underflow followed by an out-of-range index) return
  `Option`; `none` models the panic.
- io::Result values are modelled as `Except Raw`, with the error message
  as the payload.
- Terminal I/O (rendering, raw mode, the BufWriter handle) and the file
  system are collaborators; the file system is abstracted as a
  `SaveOracle` argument deciding whether a write succeeds.
- `ERow.render` is a cache recomputed synchronously after every mutation
  of `raw`, so a row is fully determined by `raw`; the embedding stores
  only the raw contents and provides the render projection `renderRow`.
-/

namespace Sage

/-- Raw line content: the chars of a Rust String. -/
abbrev Raw := List Char

/-- Modelled from the spec: the crate root (not under src/) defines the
constant TAB_SZ; spec section 3 gives the tab width as 8. -/
def TAB_SZ : Nat := 8

/-- Editor mode (src/editor.rs `Mode`). -/
inductive Mode where
  | Normal
  | Insert
  | Command
deriving DecidableEq

/-- Motion direction (src/out.rs `Direction`). -/
inductive Direction where
  | Up
  | Down
  | Left
  | Right
deriving DecidableEq

/-- Message severity (src/out.rs `MessageLevel`). -/
inductive MessageLevel where
  | Normal
  | Danger
deriving DecidableEq

/-- Status-bar / command-result message (src/out.rs `StatusMessage`). -/
structure StatusMessage where
  content : Raw
  level : MessageLevel
deriving DecidableEq

/-- Convert a Lean string literal to raw line content. -/
def strRaw (s : String) : Raw := s.toList

/-- Rust u8::is_ascii_alphabetic on a char. -/
def isAsciiAlphabetic (c : Char) : Bool :=
  (decide ('A' ≤ c) && decide (c ≤ 'Z')) || (decide ('a' ≤ c) && decide (c ≤ 'z'))

/-- Rust u8::is_ascii_digit on a char. -/
def isAsciiDigit (c : Char) : Bool :=
  decide ('0' ≤ c) && decide (c ≤ '9')

/-- Rust u8::is_ascii_alphanumeric on a char. -/
def isAsciiAlphanumeric (c : Char) : Bool :=
  isAsciiAlphabetic c || isAsciiDigit c

/-- Rust u8::is_ascii_whitespace on a char (space, tab, newline, form feed,
carriage return). -/
def isAsciiWhitespace (c : Char) : Bool :=
  decide (c = ' ') || decide (c = '\t') || decide (c = '\n') ||
    decide (c = '\x0c') || decide (c = '\r')

/-- Split raw content on a separator char, mirroring Rust str::split which
yields one (possibly empty) piece per separator gap. -/
def splitOnChar (sep : Char) : Raw → List Raw
  | [] => [[]]
  | c :: cs =>
    if c = sep then [] :: splitOnChar sep cs
    else
      match splitOnChar sep cs with
      | [] => [[c]]
      | p :: ps => (c :: p) :: ps

/-- Join pieces with a separator char, mirroring Rust slice::join. -/
def joinWith (sep : Char) : List Raw → Raw
  | [] => []
  | [r] => r
  | r :: rs => r ++ sep :: joinWith sep rs

/-- The tab-expanded rendered form of a line (src/editor.rs `ERow::render`):
each char advances a 1-based index; a tab becomes one space plus padding
spaces until the index is a multiple of TAB_SZ. -/
def renderRow (raw : Raw) : Raw :=
  (raw.foldl
    (fun acc c =>
      let index := acc.2 + 1
      if c = '\t' then
        let pad := (TAB_SZ - index % TAB_SZ) % TAB_SZ
        (acc.1 ++ ' ' :: List.replicate pad ' ', index + pad)
      else
        (acc.1 ++ [c], index))
    (([] : Raw), 0)).1

/-- The line buffer (src/editor.rs `EditorRows`): ordered rows plus the
optional associated file path. -/
structure EditorRows where
  rows : List Raw
  filename : Option Raw
deriving DecidableEq

/-- Insert at position `i`, shifting the suffix; defined only for `i ≤ len`
(Rust Vec::insert panics above). -/
def insertAt (i : Nat) (r : Raw) (l : List Raw) : List Raw :=
  l.take i ++ r :: l.drop i

namespace EditorRows

/-- src/editor.rs `EditorRows::insert_erow`; `none` models the Vec::insert
panic when `i` exceeds the length. -/
def insert_erow (e : EditorRows) (i : Nat) (raw : Raw) : Option EditorRows :=
  if i ≤ e.rows.length then some { e with rows := insertAt i raw e.rows }
  else none

/-- src/editor.rs `EditorRows::delete_erow`: bounds-checked remove (no-op
out of range). -/
def delete_erow (e : EditorRows) (i : Nat) : EditorRows :=
  if i < e.rows.length then { e with rows := e.rows.eraseIdx i } else e

/-- src/editor.rs `EditorRows::clear_erow`: clear row `i` if present
(get_mut().map, no panic). -/
def clear_erow (e : EditorRows) (i : Nat) : EditorRows :=
  { e with rows := e.rows.set i [] }

/-- src/editor.rs `EditorRows::join_adj_erows`: remove row `i`, then append
its raw content to row `i - 1` of the shortened vector. `none` models the
panics: `i` out of range for the remove, and the usize underflow / range
panic of `get_erow_mut(i - 1)` when `i = 0`. -/
def join_adj_erows (e : EditorRows) (i : Nat) : Option EditorRows :=
  if i = 0 then none
  else
    match e.rows[i]? with
    | none => none
    | some curr =>
      let rows1 := e.rows.eraseIdx i
      match rows1[i - 1]? with
      | none => none
      | some prev => some { e with rows := rows1.set (i - 1) (prev ++ curr) }

/-- src/editor.rs `EditorRows::set_filename`. -/
def set_filename (e : EditorRows) (name : Raw) : EditorRows :=
  { e with filename := some name }

/-- src/editor.rs `EditorRows::num_rows`. -/
def num_rows (e : EditorRows) : Nat := e.rows.length

end EditorRows

/-- Rust str::lines per-piece postprocessing: the pieces produced by
splitting on a newline, where every piece except the last had a newline
terminator (strip one trailing carriage return from it) and a last empty
piece only reflects a trailing newline (drop it). -/
def stripCr (l : Raw) : Raw :=
  if l.getLast? = some '\r' then l.dropLast else l

/-- Process the pieces of a newline split as Rust str::lines does. -/
def procPieces : List Raw → List Raw
  | [] => []
  | [p] => if p = [] then [] else [p]
  | p :: ps => stripCr p :: procPieces ps

/-- Rust str::lines on raw content. -/
def strLines (s : Raw) : List Raw :=
  procPieces (splitOnChar '\n' s)

/-- Row construction of src/editor.rs `EditorRows::from_file`: empty
contents (or an absent file) give one empty row, otherwise one row per
line of the contents. -/
def rowsFromContents (contents : Raw) : List Raw :=
  if contents = [] then [[]] else strLines contents

/-- The cursor controller (src/out.rs `CursorController`). -/
structure CursorController where
  cx : Nat
  cy : Nat
  rx : Nat
  cmdx : Nat
  screen_size : Nat × Nat
  y_offset : Nat
  x_offset : Nat
deriving DecidableEq

/-- The mode-dependent horizontal clamp bound used by
`CursorController::mv`: Normal mode keeps the cursor on a char
(len - 1, saturating at 0), other modes allow the append position (len). -/
def rowBound : Mode → Raw → Nat
  | .Normal, row => row.length - 1
  | _, row => row.length

namespace CursorController

/-- src/out.rs `CursorController::mv`. `none` models the panics of
`num_rows() - 1` on an empty buffer and `get_raw` at an out-of-range
row. Rust saturating_sub is Nat subtraction. -/
def mv (c : CursorController) (dir : Direction) (e : EditorRows) (mode : Mode) :
    Option CursorController :=
  match e.rows[c.cy]? with
  | none => none
  | some row =>
    let row_len := rowBound mode row
    match mode with
    | .Command =>
      match dir with
      | .Left => some { c with cmdx := c.cmdx - 1 }
      | .Right => some (if c.cmdx < row_len then { c with cmdx := c.cmdx + 1 } else c)
      | _ => some c
    | _ =>
      let c1 :=
        match dir with
        | .Up => { c with cy := c.cy - 1 }
        | .Left => { c with cx := c.cx - 1 }
        | .Down =>
          if c.cy < e.rows.length - 1 then { c with cy := c.cy + 1 } else c
        | .Right =>
          if c.cx < row_len then
            if row[c.cx + 1]? = some '\t' then { c with cx := c.cx + 2 }
            else { c with cx := c.cx + 1 }
          else c
      match e.rows[c1.cy]? with
      | none => none
      | some newRow => some { c1 with cx := min c1.cx (rowBound mode newRow) }

/-- src/out.rs `CursorController::get_rx`: render column of `cx`, expanding
tabs to the next multiple of TAB_SZ. -/
def get_rx (c : CursorController) (raw : Raw) : Nat :=
  (raw.take c.cx).foldl
    (fun rx ch => if ch = '\t' then (rx + TAB_SZ) / TAB_SZ * TAB_SZ else rx + 1) 0

end CursorController

/-- Bounded forward scan: the loop `while pos < stop && p(bytes[pos])`
with the access guarded only by `pos < stop`; fuel `k = stop - pos` is the
exact trip bound, `none` models an index panic (only possible when `stop`
exceeds the row length). -/
def scanFwdGo (row : Raw) (p : Char → Bool) (pos : Nat) : Nat → Option Nat
  | 0 => some pos
  | k + 1 =>
    match row[pos]? with
    | none => none
    | some c => if p c then scanFwdGo row p (pos + 1) k else some pos

/-- Forward scan from `pos` while `p` holds, stopping at `stop`. -/
def scanFwd (row : Raw) (stop : Nat) (p : Char → Bool) (pos : Nat) : Option Nat :=
  scanFwdGo row p pos (stop - pos)

/-- Backward scan: the loop `while pos > 0 && p(bytes[pos])`; `none`
models an index panic at the initial position. -/
def scanBack (row : Raw) (p : Char → Bool) : Nat → Option Nat
  | 0 => some 0
  | pos + 1 =>
    match row[pos + 1]? with
    | none => none
    | some c => if p c then scanBack row p pos else some (pos + 1)

/-- Unbounded forward whitespace scan of `Output::goto_start_line`:
`while bytes[pos].is_ascii_whitespace() { pos += 1 }` with no bound check;
running past the end is an index panic (`none`). The fuel `length + 1`
strictly bounds the trip count of every execution, so the fuel-exhausted
arm is never reached. -/
def wsAdvanceGo (row : Raw) : Nat → Nat → Option Nat
  | 0, _ => none
  | k + 1, pos =>
    match row[pos]? with
    | none => none
    | some c => if isAsciiWhitespace c then wsAdvanceGo row k (pos + 1) else some pos

/-- Unbounded forward whitespace scan starting at `pos`. -/
def wsAdvance (row : Raw) (pos : Nat) : Option Nat :=
  wsAdvanceGo row (row.length + 1) pos

/-- The upward-moving whitespace loop at the end of `Output::prev_word`:
`while pos > 0 && bytes[pos].is_ascii_whitespace() { pos += 1 }`; the
position grows, so it stops only at a non-whitespace char or with an index
panic (`none`). Fuel as in `wsAdvanceGo`. -/
def scanUpWsGo (row : Raw) : Nat → Nat → Option Nat
  | _, 0 => some 0
  | 0, _ + 1 => none
  | k + 1, pos + 1 =>
    match row[pos + 1]? with
    | none => none
    | some c => if isAsciiWhitespace c then scanUpWsGo row k (pos + 2) else some (pos + 1)

/-- Upward whitespace scan starting at `pos`. -/
def scanUpWs (row : Raw) (pos : Nat) : Option Nat :=
  scanUpWsGo row (row.length + 1) pos

/-- The output/view state (src/out.rs `Output`); the BufWriter handle is a
terminal collaborator and is not part of the state. -/
structure Output where
  size : Nat × Nat
  c_ctrl : CursorController
  stt_msg : Option StatusMessage
  cmd_msg : Option StatusMessage
  cmd : Option Raw
  dirty : Nat
deriving DecidableEq

namespace Output

/-- src/out.rs `Output::insert`: insert a char at the cursor, advance the
cursor, bump the dirty counter. `none` models the `get_erow_mut` /
String::insert panics. -/
def insert (o : Output) (e : EditorRows) (ch : Char) : Option (Output × EditorRows) :=
  match e.rows[o.c_ctrl.cy]? with
  | none => none
  | some row =>
    if o.c_ctrl.cx ≤ row.length then
      let row1 := row.take o.c_ctrl.cx ++ ch :: row.drop o.c_ctrl.cx
      some ({ o with
                c_ctrl := { o.c_ctrl with cx := o.c_ctrl.cx + 1 },
                dirty := o.dirty + 1 },
            { e with rows := e.rows.set o.c_ctrl.cy row1 })
    else none

/-- src/out.rs `Output::new_line` (the o/O commands): insert an empty row
at the cursor row (Up) or below it (Down), move the cursor there, bump the
dirty counter. Left/Right hit `unimplemented!` (`none`). -/
def new_line (o : Output) (dir : Direction) (e : EditorRows) : Option (Output × EditorRows) :=
  let y? :=
    match dir with
    | .Up => some o.c_ctrl.cy
    | .Down => some (o.c_ctrl.cy + 1)
    | _ => none
  match y? with
  | none => none
  | some y =>
    match e.insert_erow y [] with
    | none => none
    | some e1 =>
      some ({ o with
                c_ctrl := { o.c_ctrl with cy := y, cx := 0 },
                dirty := o.dirty + 1 }, e1)

/-- src/out.rs `Output::delete_line` (the dd command): on the only row of a
single-row buffer clear it, otherwise bounds-checked remove and move the
cursor up one row (saturating); the cursor column goes to 0. Note the
function never touches the dirty counter. -/
def delete_line (o : Output) (e : EditorRows) : Output × EditorRows :=
  let n_rows := e.num_rows - 1
  if o.c_ctrl.cy = 0 ∧ n_rows = 0 then
    ({ o with c_ctrl := { o.c_ctrl with cx := 0 } }, e.clear_erow o.c_ctrl.cy)
  else
    ({ o with c_ctrl := { o.c_ctrl with cy := o.c_ctrl.cy - 1, cx := 0 } },
     e.delete_erow o.c_ctrl.cy)

/-- src/out.rs `Output::break_line` (Enter in Insert mode): split the
current row at the cursor, keep the prefix, insert the suffix as a new row
below, move to column 0 of the new row, bump the dirty counter. `none`
models the `get_erow_mut` / slice panics. -/
def break_line (o : Output) (e : EditorRows) : Option (Output × EditorRows) :=
  match e.rows[o.c_ctrl.cy]? with
  | none => none
  | some row =>
    if o.c_ctrl.cx ≤ row.length then
      let e1 : EditorRows :=
        { e with rows := e.rows.set o.c_ctrl.cy (row.take o.c_ctrl.cx) }
      match e1.insert_erow (o.c_ctrl.cy + 1) (row.drop o.c_ctrl.cx) with
      | none => none
      | some e2 =>
        some ({ o with
                  c_ctrl := { o.c_ctrl with cx := 0, cy := o.c_ctrl.cy + 1 },
                  dirty := o.dirty + 1 }, e2)
    else none

/-- src/out.rs `Output::delete_char`: x in Normal mode, Backspace in Insert
and Command modes. Empty current row outside Command mode returns early
with no change. In Insert mode at column 0 of a later row, the row is
joined onto the previous one; the dirty counter is bumped even when
nothing changes (column 0 of row 0). `none` models the various index
panics. -/
def delete_char (o : Output) (e : EditorRows) (mode : Mode) : Option (Output × EditorRows) :=
  match e.rows[o.c_ctrl.cy]? with
  | none => none
  | some row =>
    if row.length = 0 ∧ mode ≠ .Command then some (o, e)
    else
      match mode with
      | .Normal =>
        if o.c_ctrl.cx < row.length then
          let row1 := row.eraseIdx o.c_ctrl.cx
          let cx1 := if o.c_ctrl.cx > row1.length - 1 then row1.length - 1 else o.c_ctrl.cx
          some ({ o with c_ctrl := { o.c_ctrl with cx := cx1 }, dirty := o.dirty + 1 },
                { e with rows := e.rows.set o.c_ctrl.cy row1 })
        else none
      | .Insert =>
        if o.c_ctrl.cx > 0 then
          if o.c_ctrl.cx - 1 < row.length then
            let row1 := row.eraseIdx (o.c_ctrl.cx - 1)
            let e1 : EditorRows := { e with rows := e.rows.set o.c_ctrl.cy row1 }
            match o.c_ctrl.mv .Left e1 .Insert with
            | none => none
            | some c1 =>
              some ({ o with c_ctrl := c1, dirty := o.dirty + 1 }, e1)
          else none
        else
          if o.c_ctrl.cy > 0 then
            match e.rows[o.c_ctrl.cy - 1]? with
            | none => none
            | some prev =>
              match e.join_adj_erows o.c_ctrl.cy with
              | none => none
              | some e1 =>
                some ({ o with
                        c_ctrl := { o.c_ctrl with cx := prev.length, cy := o.c_ctrl.cy - 1 },
                        dirty := o.dirty + 1 }, e1)
          else some ({ o with dirty := o.dirty + 1 }, e)
      | .Command =>
        match o.cmd with
        | some cmd =>
          if o.c_ctrl.cmdx > 1 then
            if o.c_ctrl.cmdx - 2 < cmd.length then
              let cmd1 := cmd.eraseIdx (o.c_ctrl.cmdx - 2)
              match o.c_ctrl.mv .Left e .Command with
              | none => none
              | some c1 => some ({ o with cmd := some cmd1, c_ctrl := c1 }, e)
            else none
          else some (o, e)
        | none => some (o, e)

/-- src/out.rs `Output::goto_y` (G and gg). -/
def goto_y (o : Output) (y : Nat) : Output :=
  { o with c_ctrl := { o.c_ctrl with cy := y } }

/-- src/out.rs `Output::goto_end_line`: last char index in Normal mode,
one-past-end in Insert mode. `none` models the `get_raw` panic. -/
def goto_end_line (o : Output) (e : EditorRows) (mode : Mode) : Option Output :=
  match e.rows[o.c_ctrl.cy]? with
  | none => none
  | some row =>
    let sub := match mode with | .Insert => 0 | _ => 1
    some { o with c_ctrl := { o.c_ctrl with cx := row.length - sub } }

/-- src/out.rs `Output::goto_start_line` (I and underscore): walk the
unguarded whitespace loop from column 0 when the row length exceeds 1,
then clamp to the last char index. `none` models the index panic of the
loop running past the end of the row. -/
def goto_start_line (o : Output) (e : EditorRows) : Option Output :=
  match e.rows[o.c_ctrl.cy]? with
  | none => none
  | some row =>
    let pos? := if row.length - 1 > 0 then wsAdvance row 0 else some 0
    match pos? with
    | none => none
    | some pos =>
      some { o with c_ctrl := { o.c_ctrl with cx := min pos (row.length - 1) } }

/-- src/out.rs `Output::next_word` (w and e motions). At the last char
index of the current row: move down one row (Normal-mode mv) and set the
column to 0. Otherwise scan runs of alphabetic/alphanumeric chars and
whitespace bounded by the last char index. `none` models the index
panics. -/
def next_word (o : Output) (e : EditorRows) (to_end : Bool) : Option Output :=
  match e.rows[o.c_ctrl.cy]? with
  | none => none
  | some row =>
    if row.length - 1 = o.c_ctrl.cx then
      match o.c_ctrl.mv .Down e .Normal with
      | none => none
      | some c1 => some { o with c_ctrl := { c1 with cx := 0 } }
    else
      let erow_len := row.length - 1
      if erow_len = 0 then some o
      else
        let step1 : Option Nat :=
          if to_end then some o.c_ctrl.cx
          else
            match row[o.c_ctrl.cx]? with
            | none => none
            | some c0 =>
              if isAsciiAlphabetic c0 = false then
                scanFwd row erow_len (fun c => !(isAsciiAlphabetic c)) o.c_ctrl.cx
              else
                scanFwd row erow_len
                  (fun c => isAsciiAlphabetic c || isAsciiAlphanumeric c) o.c_ctrl.cx
        match step1 with
        | none => none
        | some pos1 =>
          match scanFwd row erow_len isAsciiWhitespace pos1 with
          | none => none
          | some pos2 =>
            if to_end then
              match row[pos2]? with
              | none => none
              | some c2 =>
                let step3 :=
                  if isAsciiAlphabetic c2 = false then
                    scanFwd row erow_len (fun c => !(isAsciiAlphabetic c)) pos2
                  else
                    scanFwd row erow_len
                      (fun c => isAsciiAlphabetic c || isAsciiAlphanumeric c) pos2
                match step3 with
                | none => none
                | some pos3 =>
                  match scanBack row isAsciiWhitespace pos3 with
                  | none => none
                  | some pos4 =>
                    some { o with c_ctrl := { o.c_ctrl with cx := min pos4 erow_len } }
            else
              some { o with c_ctrl := { o.c_ctrl with cx := min pos2 erow_len } }

/-- src/out.rs `Output::prev_word` (b and ge motions). At column 0 of a
later row: move up one row and go to its last char index. Otherwise walk
backward over the current run and whitespace; with `to_start` continue to
the run start and then walk the upward whitespace loop. `none` models the
index panics, in particular the unguarded initial access `bytes[cx]` on an
empty row. -/
def prev_word (o : Output) (e : EditorRows) (to_start : Bool) : Option Output :=
  if o.c_ctrl.cx = 0 ∧ o.c_ctrl.cy ≠ 0 then
    match o.c_ctrl.mv .Up e .Normal with
    | none => none
    | some c1 =>
      match e.rows[c1.cy]? with
      | none => none
      | some newRow =>
        some { o with c_ctrl := { c1 with cx := newRow.length - 1 } }
  else
    match e.rows[o.c_ctrl.cy]? with
    | none => none
    | some row =>
      match row[o.c_ctrl.cx]? with
      | none => none
      | some c0 =>
        let step1 :=
          if !(isAsciiAlphabetic c0) && !(isAsciiAlphanumeric c0) then
            scanBack row (fun c => !(isAsciiAlphabetic c) && !(isAsciiAlphanumeric c))
              o.c_ctrl.cx
          else
            scanBack row (fun c => isAsciiAlphabetic c || isAsciiAlphanumeric c)
              o.c_ctrl.cx
        match step1 with
        | none => none
        | some pos1 =>
          match scanBack row isAsciiWhitespace pos1 with
          | none => none
          | some pos2 =>
            if to_start then
              match row[pos2]? with
              | none => none
              | some c2 =>
                let step3 :=
                  if isAsciiAlphabetic c2 = false then
                    scanBack row (fun c => !(isAsciiAlphabetic c)) pos2
                  else
                    scanBack row
                      (fun c => isAsciiAlphabetic c || isAsciiAlphanumeric c) pos2
                match step3 with
                | none => none
                | some pos3 =>
                  match scanUpWs row pos3 with
                  | none => none
                  | some pos4 =>
                    some { o with c_ctrl :=
                      { o.c_ctrl with cx := min pos4 (row.length - 1) } }
            else
              some { o with c_ctrl :=
                { o.c_ctrl with cx := min pos2 (row.length - 1) } }

/-- src/out.rs `Output::move_cursor`. -/
def move_cursor (o : Output) (dir : Direction) (e : EditorRows) (mode : Mode) :
    Option Output :=
  match o.c_ctrl.mv dir e mode with
  | none => none
  | some c1 => some { o with c_ctrl := c1 }

/-- src/out.rs `Output::reset_cmd_cursor`. -/
def reset_cmd_cursor (o : Output) : Output :=
  { o with c_ctrl := { o.c_ctrl with cmdx := 1 } }

/-- src/out.rs `Output::set_stt_msg`. -/
def set_stt_msg (o : Output) (msg : Raw) (level : MessageLevel) : Output :=
  { o with stt_msg := some { content := msg, level := level } }

/-- src/out.rs `Output::set_cmd_msg`. -/
def set_cmd_msg (o : Output) (msg : Raw) (level : MessageLevel) : Output :=
  { o with cmd_msg := some { content := msg, level := level } }

/-- src/out.rs `Output::clear_stt_msg`. -/
def clear_stt_msg (o : Output) : Output := { o with stt_msg := none }

/-- src/out.rs `Output::clear_cmd_msg`. -/
def clear_cmd_msg (o : Output) : Output := { o with cmd_msg := none }

/-- src/out.rs `Output::push_cmd`. -/
def push_cmd (o : Output) (c : Char) : Output :=
  { o with cmd := some (o.cmd.getD [] ++ [c]),
           c_ctrl := { o.c_ctrl with cmdx := o.c_ctrl.cmdx + 1 } }

/-- src/out.rs `Output::get_cmd`: the pending command split on single
spaces. -/
def get_cmd (o : Output) : Option (List Raw) :=
  o.cmd.map (splitOnChar ' ')

/-- src/out.rs `Output::clear_cmd`. -/
def clear_cmd (o : Output) : Output := { o with cmd := none }

end Output

/-- Logical key identity, as decoded by the crossterm collaborator
(src/editor.rs uses crossterm KeyCode). -/
inductive KeyCode where
  | char (c : Char)
  | esc
  | enter
  | backspace
  | tab
  | up
  | down
  | left
  | right
deriving DecidableEq

/-- The editor (src/editor.rs `Editor`). -/
structure Editor where
  mode : Mode
  output : Output
  e_rows : EditorRows
  last_code : Option KeyCode
deriving DecidableEq

/-- The file-system collaborator behind `Editor::save`: given the target
path and the contents to write, `none` means the write (open/set_len/
write_all) succeeded, `some err` is the description of the I/O error. -/
def SaveOracle : Type := Raw → Raw → Option Raw

/-- ASCII decimal digits of a number, for the byte-count messages. -/
def natRaw (n : Nat) : Raw := Nat.toDigits 10 n

/-- Content of the byte-count message written after a successful save. -/
def bytesMsg (len : Nat) : Raw := natRaw len ++ strRaw (" bytes written to disk")

/-- The single-quote char, written by code point to build the
unknown-command message. -/
def quoteChar : Char := Char.ofNat 39

namespace Editor

/-- src/editor.rs `Editor::save`: error when no filename is associated;
otherwise join all raw rows with single newlines, hand the contents to the
file system, and report the byte count written. -/
def save (fs : SaveOracle) (ed : Editor) : Except Raw Nat :=
  match ed.e_rows.filename with
  | none => .error (strRaw ("No file name specified"))
  | some name =>
    let contents := joinWith '\n' ed.e_rows.rows
    match fs name contents with
    | some err => .error err
    | none => .ok contents.length

/-- Editor with a command-result message set. -/
def with_cmd_msg (ed : Editor) (msg : Raw) (level : MessageLevel) : Editor :=
  { ed with output := ed.output.set_cmd_msg msg level }

/-- Editor after a successful save: byte-count message, dirty counter
reset to zero. -/
def after_save (ed : Editor) (len : Nat) : Editor :=
  { ed with output :=
      { ed.output.set_cmd_msg (bytesMsg len) .Normal with dirty := 0 } }

/-- The unknown-command danger message. -/
def unknown_cmd (ed : Editor) (it : List Raw) : Editor :=
  ed.with_cmd_msg
    (strRaw ("Unknown command ") ++ quoteChar :: joinWith ' ' it ++ [quoteChar])
    .Danger

/-- src/editor.rs `Editor::exec_cmd`: interpret the pending command
string. The Bool is the quit outcome that breaks the poll loop. The
`Except` error is the io::Result error propagated with the question-mark
operator in the bare `w` branch (the other save branches catch the error
and surface it as a danger message). -/
def exec_cmd (fs : SaveOracle) (ed : Editor) : Except Raw (Bool × Editor) :=
  match ed.output.get_cmd with
  | none => .ok (false, ed.with_cmd_msg (strRaw ("No command found")) .Danger)
  | some it =>
    match it with
    | [t] =>
      if t = strRaw ("q") then
        if ed.output.dirty > 0 then
          .ok (false,
            ed.with_cmd_msg (strRaw ("Found unsaved changes, q! to force quit")) .Danger)
        else .ok (true, ed)
      else if t = strRaw ("q!") then .ok (true, ed)
      else if t = strRaw ("w") then
        if ed.e_rows.filename = none then
          .ok (false, ed.with_cmd_msg (strRaw ("No file name specified")) .Danger)
        else
          match ed.save fs with
          | .error e => .error e
          | .ok len => .ok (false, ed.after_save len)
      else if t = strRaw ("wq") then
        match ed.save fs with
        | .error e => .ok (false, ed.with_cmd_msg e .Danger)
        | .ok len => .ok (true, ed.after_save len)
      else .ok (false, ed.unknown_cmd it)
    | [t, name] =>
      if t = strRaw ("w") then
        let ed1 := { ed with e_rows := ed.e_rows.set_filename name }
        match ed1.save fs with
        | .error e => .ok (false, ed1.with_cmd_msg e .Danger)
        | .ok len => .ok (false, ed1.after_save len)
      else if t = strRaw ("wq") then
        let ed1 := { ed with e_rows := ed.e_rows.set_filename name }
        match ed1.save fs with
        | .error e => .ok (false, ed1.with_cmd_msg e .Danger)
        | .ok len => .ok (true, ed1.after_save len)
      else .ok (false, ed.unknown_cmd it)
    | _ => .ok (false, ed.unknown_cmd it)

/-- src/editor.rs `Editor::change_mode` (the cursor-glyph escape writes go
to the terminal collaborator): entering Normal moves the cursor one column
left; entering Insert clears the command message and sets the mode
message; entering Command resets the command cursor, clears both messages
and clears the pending command string. -/
def change_mode (ed : Editor) (mode : Mode) : Option Editor :=
  match mode with
  | .Normal =>
    match ed.output.move_cursor .Left ed.e_rows .Normal with
    | none => none
    | some o1 => some { ed with mode := .Normal, output := o1 }
  | .Insert =>
    some { ed with
             mode := .Insert,
             output := (ed.output.clear_cmd_msg).set_stt_msg (strRaw ("-- INSERT --")) .Normal }
  | .Command =>
    some { ed with
             mode := .Command,
             output := ((ed.output.reset_cmd_cursor).clear_stt_msg).clear_cmd_msg.clear_cmd }

/-- src/editor.rs `Editor::handle_command_press`: Esc cancels back to
Normal; a char is appended to the pending command; Enter executes the
command (propagating its io error) and then returns to Normal, reporting
the quit outcome; Backspace edits the pending command. `none` models the
panics inside the cursor move of `change_mode` / `delete_char`. -/
def handle_command_press (fs : SaveOracle) (ed : Editor) (code : KeyCode) :
    Option (Except Raw (Bool × Editor)) :=
  match code with
  | .esc =>
    match ed.change_mode .Normal with
    | none => none
    | some ed1 => some (.ok (false, ed1))
  | .char c => some (.ok (false, { ed with output := ed.output.push_cmd c }))
  | .enter =>
    match ed.exec_cmd fs with
    | .error e => some (.error e)
    | .ok (q, ed1) =>
      match ed1.change_mode .Normal with
      | none => none
      | some ed2 => some (.ok (q, ed2))
  | .backspace =>
    match ed.output.delete_char ed.e_rows .Command with
    | none => none
    | some (o1, e1) => some (.ok (false, { ed with output := o1, e_rows := e1 }))
  | _ => some (.ok (false, ed))

/-- The Control+S arm of src/editor.rs `Editor::poll`, matched before any
mode dispatch (so identical in every mode): save, and on success set the
byte-count status message and reset the dirty counter. A save error is
propagated out of the poll loop by the question-mark operator, ending the
session with that io error. -/
def ctrl_s (fs : SaveOracle) (ed : Editor) : Except Raw Editor :=
  match ed.save fs with
  | .error e => .error e
  | .ok len =>
    .ok { ed with output :=
      { ed.output.set_stt_msg (bytesMsg len) .Normal with dirty := 0 } }

end Editor

/-- A cursor at the origin with the default screen size. -/
def cursor0 : CursorController :=
  { cx := 0, cy := 0, rx := 0, cmdx := 1, screen_size := (80, 24),
    y_offset := 0, x_offset := 0 }

/-- An output state at the origin with no messages, no pending command and
a clean dirty counter. -/
def output0 : Output :=
  { size := (80, 24), c_ctrl := cursor0, stt_msg := none, cmd_msg := none,
    cmd := none, dirty := 0 }

/-- A file system that accepts every write. -/
def fsOk : SaveOracle := fun _ _ => none

/-- Iterated cursor motion: apply `mv` for each direction of the list in
turn, propagating a panic. -/
def mvSeq (ds : List Direction) (e : EditorRows) (mode : Mode)
    (c : CursorController) : Option CursorController :=
  match ds with
  | [] => some c
  | d :: ds1 =>
    match c.mv d e mode with
    | none => none
    | some c1 => mvSeq ds1 e mode c1

/-- An output state with the cursor at column `x` of row 0. -/
def outputAtCol (x : Nat) : Output :=
  { output0 with c_ctrl := { cursor0 with cx := x } }

/-- An output state with the cursor at column 0 of row 1. -/
def outputAtRow1 : Output :=
  { output0 with c_ctrl := { cursor0 with cy := 1 } }

/-- A single-row buffer with content "a". -/
def erowsA : EditorRows := { rows := [strRaw ("a")], filename := none }

/-- A two-row buffer with contents "a" and "b". -/
def erowsAB2 : EditorRows :=
  { rows := [strRaw ("a"), strRaw ("b")], filename := none }

/-- A single-row buffer with content "ab". -/
def erowsAB : EditorRows := { rows := [strRaw ("ab")], filename := none }

/-- A single-row buffer whose row is two spaces. -/
def erowsWs : EditorRows := { rows := [strRaw ("  ")], filename := none }

/-- A buffer with one empty row. -/
def erowsEmpty : EditorRows := { rows := [[]], filename := none }

/-- A single-row buffer with content "  foo bar". -/
def erowsFooBar : EditorRows :=
  { rows := [strRaw ("  foo bar")], filename := none }

/-- A two-row buffer with contents "abc" and "def". -/
def erowsAbcDef : EditorRows :=
  { rows := [strRaw ("abc"), strRaw ("def")], filename := none }

/-- A two-row buffer with contents "abc" and an empty row. -/
def erowsAbcEmpty : EditorRows :=
  { rows := [strRaw ("abc"), []], filename := none }

/-- An editor in the given mode over the given output and buffer. -/
def mkEditor (m : Mode) (o : Output) (e : EditorRows) : Editor :=
  { mode := m, output := o, e_rows := e, last_code := none }

/-- The concrete editor obtained by entering Command mode from a plain
Normal-mode editor over the buffer ["ab"]. -/
def editorCmdEntered : Editor :=
  { mkEditor .Normal output0 erowsAB with
      mode := .Command,
      output := (((output0.reset_cmd_cursor).clear_stt_msg).clear_cmd_msg).clear_cmd }

/-- Claim C1: with the pending command `q` and a positive dirty counter,
`exec_cmd` keeps the editor open (quit flag false) and sets the
danger-level unsaved-changes message; with `q` and dirty counter zero it
quits; with `q!` it quits unconditionally, returning the editor (buffer
included) unchanged. -/
theorem exec_cmd_quit_semantics (fs : SaveOracle) (ed : Editor) :
    (ed.output.cmd = some (strRaw ("q")) → 0 < ed.output.dirty →
      Editor.exec_cmd fs ed =
        .ok (false,
          ed.with_cmd_msg (strRaw ("Found unsaved changes, q! to force quit")) .Danger)) ∧
    (ed.output.cmd = some (strRaw ("q")) → ed.output.dirty = 0 →
      Editor.exec_cmd fs ed = .ok (true, ed)) ∧
    (ed.output.cmd = some (strRaw ("q!")) →
      Editor.exec_cmd fs ed = .ok (true, ed)) := by
  refine ⟨fun h1 h2 => ?_, fun h1 h2 => ?_, fun h1 => ?_⟩
  · have hc : ed.output.get_cmd = some [strRaw ("q")] := by
      rw [Output.get_cmd, h1]; rfl
    simp [Editor.exec_cmd, hc, h2, Nat.pos_iff_ne_zero.mp h2]
  · have hc : ed.output.get_cmd = some [strRaw ("q")] := by
      rw [Output.get_cmd, h1]; rfl
    simp [Editor.exec_cmd, hc, h2]
  · have hc : ed.output.get_cmd = some [strRaw ("q!")] := by
      rw [Output.get_cmd, h1]; rfl
    simp [Editor.exec_cmd, hc, (by decide : ¬(strRaw ("q!") = strRaw ("q")))]

/-- Witness for C1: concrete editors exercising the three branches. -/
theorem exec_cmd_quit_semantics_witness :
    Editor.exec_cmd fsOk (mkEditor .Command { output0 with cmd := some (strRaw ("q")), dirty := 3 } erowsA) =
      .ok (false,
        (mkEditor .Command { output0 with cmd := some (strRaw ("q")), dirty := 3 } erowsA).with_cmd_msg
          (strRaw ("Found unsaved changes, q! to force quit")) .Danger) ∧
    Editor.exec_cmd fsOk (mkEditor .Command { output0 with cmd := some (strRaw ("q")) } erowsA) =
      .ok (true, mkEditor .Command { output0 with cmd := some (strRaw ("q")) } erowsA) ∧
    Editor.exec_cmd fsOk (mkEditor .Command { output0 with cmd := some (strRaw ("q!")), dirty := 7 } erowsA) =
      .ok (true, mkEditor .Command { output0 with cmd := some (strRaw ("q!")), dirty := 7 } erowsA) :=
  ⟨(exec_cmd_quit_semantics fsOk _).1 rfl (by decide),
   (exec_cmd_quit_semantics fsOk _).2.1 rfl rfl,
   (exec_cmd_quit_semantics fsOk _).2.2 rfl⟩

/-- Claim C2 (code bug): `Output::delete_line`, the dd operation, mutates
the buffer (clearing the only row, or removing the current row) yet leaves
the dirty counter unchanged, contradicting the spec rule that every
unsaved mutation increases the dirty counter. -/
theorem delete_line_leaves_dirty_unchanged :
    (Output.delete_line output0 erowsA).2.rows = [[]] ∧
    (Output.delete_line output0 erowsA).1.dirty = 0 ∧
    (Output.delete_line output0 erowsAB2).2.rows = [strRaw ("b")] ∧
    (Output.delete_line output0 erowsAB2).1.dirty = 0 := by decide

/-- Claim C5 (code bug): `goto_start_line` on a line of two spaces runs
its unguarded whitespace loop past the end of the row (an out-of-range
index, modelled as `none`), and `prev_word` on an empty line reads
`bytes[0]` of an empty string; both contradict the saturate-and-return
edge policy. -/
theorem motions_index_out_of_range :
    Output.goto_start_line output0 erowsWs = none ∧
    Output.prev_word output0 erowsEmpty true = none ∧
    Output.prev_word output0 erowsEmpty false = none := by decide

/-- Claim C7 (code bug): on the line "  foo bar" the w motion lands on
column 2 from column 0 and on column 6 from column 2 as claimed, but from
the last character of the last line `next_word` is not a no-op: it resets
the cursor column to 0 (buffer ["ab"], cursor (0,1) moves to (0,0)). -/
theorem next_word_starts_and_buffer_end :
    (Output.next_word output0 erowsFooBar false).map
      (fun o2 => (o2.c_ctrl.cy, o2.c_ctrl.cx)) = some (0, 2) ∧
    (Output.next_word (outputAtCol 2) erowsFooBar false).map
      (fun o2 => (o2.c_ctrl.cy, o2.c_ctrl.cx)) = some (0, 6) ∧
    (Output.next_word (outputAtCol 1) erowsAB false).map
      (fun o2 => (o2.c_ctrl.cy, o2.c_ctrl.cx)) = some (0, 0) ∧
    (Output.next_word (outputAtCol 1) erowsAB false).map
      (fun o2 => (o2.c_ctrl.cy, o2.c_ctrl.cx)) ≠ some (0, 1) := by decide

/-- Counterexample for C6: a buffer whose last line is empty does not
round-trip: ["a", ""] is saved as "a" plus a trailing newline, which
str::lines reads back as the single line ["a"]. -/
theorem save_load_drops_trailing_empty_line :
    rowsFromContents (joinWith '\n' [strRaw ("a"), []]) = [strRaw ("a")] ∧
    [strRaw ("a")] ≠ [strRaw ("a"), ([] : Raw)] := by decide

/-- Counterexample for C8: Backspace at column 0 of an empty row does not
join it onto the previous row; the empty-row early return leaves buffer
and cursor unchanged (buffer ["abc", ""], cursor at row 1 column 0). -/
theorem backspace_join_noop_on_empty_row :
    Output.delete_char outputAtRow1 erowsAbcEmpty .Insert =
      some (outputAtRow1, erowsAbcEmpty) ∧
    erowsAbcEmpty.rows = [strRaw ("abc"), []] ∧
    [strRaw ("abc"), ([] : Raw)] ≠ [strRaw ("abc") ++ ([] : Raw)] := by
  refine ⟨by decide, by decide, by decide⟩

/-- Claim C9: Control+S (matched before any mode dispatch) with no
associated filename makes `Editor::save` return the no-file-name error,
which the poll arm propagates with the question-mark operator: the session
ends with that io error and no in-editor message is produced. -/
theorem ctrl_s_no_filename_terminates (fs : SaveOracle) (ed : Editor)
    (h : ed.e_rows.filename = none) :
    Editor.ctrl_s fs ed = .error (strRaw ("No file name specified")) := by
  simp [Editor.ctrl_s, Editor.save, h]

/-- Witness for C9. -/
theorem ctrl_s_no_filename_terminates_witness :
    Editor.ctrl_s fsOk (mkEditor .Insert output0 erowsEmpty) =
      .error (strRaw ("No file name specified")) :=
  ctrl_s_no_filename_terminates fsOk _ rfl

/-- Setting a row keeps a nonempty row list nonempty. -/
theorem set_ne_nil (l : List Raw) (i : Nat) (r : Raw) (h : l ≠ []) :
    l.set i r ≠ [] := by
  apply List.ne_nil_of_length_pos
  rw [List.length_set]
  exact List.length_pos.mpr h

/-- Row insertion always yields a nonempty row list. -/
theorem insertAt_ne_nil (i : Nat) (r : Raw) (l : List Raw) :
    insertAt i r l ≠ [] := by
  simp [insertAt]

/-- Inversion for a successful `insert_erow`. -/
theorem insert_erow_some (e : EditorRows) (i : Nat) (r : Raw) (e1 : EditorRows)
    (h : e.insert_erow i r = some e1) : e1.rows = insertAt i r e.rows := by
  unfold EditorRows.insert_erow at h
  split at h
  · injection h with h
    rw [← h]
  · simp at h

/-- Inversion for a successful `join_adj_erows`: the index was a valid
later row and the row count went down by one. -/
theorem join_adj_erows_some (e : EditorRows) (i : Nat) (e1 : EditorRows)
    (h : e.join_adj_erows i = some e1) :
    1 ≤ i ∧ i < e.rows.length ∧ e1.rows.length = e.rows.length - 1 := by
  unfold EditorRows.join_adj_erows at h
  split at h
  · simp at h
  · rename_i hi0
    split at h
    · simp at h
    · rename_i curr hcurr
      dsimp only at h
      split at h
      · simp at h
      · rename_i prev hprev
        injection h with h
        have hlt : i < e.rows.length := (List.getElem?_eq_some.mp hcurr).1
        refine ⟨by omega, hlt, ?_⟩
        rw [← h]
        simp [List.length_set, List.length_eraseIdx, hlt]

/-- Claim C3: every editing operation keeps the buffer nonempty: a
successful insert, break-line, delete-char (any mode, including the
Insert-mode join) or new-line preserves at least one row, `delete_line`
does too, and dd on a single-row buffer clears the row instead of
removing it. -/
theorem buffer_never_empty (o : Output) (e : EditorRows) (h : e.rows ≠ []) :
    ((Output.delete_line o e).2.rows ≠ []) ∧
    (∀ c o2 e2, Output.insert o e c = some (o2, e2) → e2.rows ≠ []) ∧
    (∀ o2 e2, Output.break_line o e = some (o2, e2) → e2.rows ≠ []) ∧
    (∀ m o2 e2, Output.delete_char o e m = some (o2, e2) → e2.rows ≠ []) ∧
    (∀ d o2 e2, Output.new_line o d e = some (o2, e2) → e2.rows ≠ []) ∧
    (∀ r, e.rows = [r] → o.c_ctrl.cy = 0 → (Output.delete_line o e).2.rows = [[]]) := by
  have hpos : 0 < e.rows.length := List.length_pos.mpr h
  refine ⟨?_, ?_, ?_, ?_, ?_, ?_⟩
  · unfold Output.delete_line EditorRows.num_rows
    dsimp only
    split
    · exact set_ne_nil _ _ _ h
    · rename_i hcond
      unfold EditorRows.delete_erow
      split
      · rename_i hlt
        apply List.ne_nil_of_length_pos
        rw [List.length_eraseIdx, if_pos hlt]
        rcases eq_or_ne o.c_ctrl.cy 0 with h0 | h0
        · have h1 : ¬(e.rows.length - 1 = 0) := fun hb => hcond ⟨h0, hb⟩
          omega
        · omega
      · exact h
  · intro c o2 e2 hs
    unfold Output.insert at hs
    try dsimp only at hs
    split at hs
    · simp at hs
    · split at hs
      · simp only [Option.some.injEq, Prod.mk.injEq] at hs
        rw [← hs.2]
        exact set_ne_nil _ _ _ h
      · simp at hs
  · intro o2 e2 hs
    unfold Output.break_line at hs
    split at hs
    · simp at hs
    · split at hs
      · dsimp only at hs
        split at hs
        · simp at hs
        · rename_i e3 hins
          simp only [Option.some.injEq, Prod.mk.injEq] at hs
          rw [← hs.2, insert_erow_some _ _ _ _ hins]
          exact insertAt_ne_nil _ _ _
      · simp at hs
  · intro m o2 e2 hs
    unfold Output.delete_char at hs
    try dsimp only at hs
    split at hs
    · simp at hs
    · split at hs
      · simp only [Option.some.injEq, Prod.mk.injEq] at hs
        rw [← hs.2]
        exact h
      · split at hs
        · -- Normal
          split at hs
          · simp only [Option.some.injEq, Prod.mk.injEq] at hs
            rw [← hs.2]
            exact set_ne_nil _ _ _ h
          · simp at hs
        · -- Insert
          split at hs
          · split at hs
            · try dsimp only at hs
              split at hs
              · simp at hs
              · simp only [Option.some.injEq, Prod.mk.injEq] at hs
                rw [← hs.2]
                exact set_ne_nil _ _ _ h
            · simp at hs
          · split at hs
            · split at hs
              · simp at hs
              · split at hs
                · simp at hs
                · rename_i e3 hjoin
                  simp only [Option.some.injEq, Prod.mk.injEq] at hs
                  obtain ⟨h1, h2, h3⟩ := join_adj_erows_some _ _ _ hjoin
                  rw [← hs.2]
                  apply List.ne_nil_of_length_pos
                  omega
            · simp only [Option.some.injEq, Prod.mk.injEq] at hs
              rw [← hs.2]
              exact h
        · -- Command
          split at hs
          · split at hs
            · split at hs
              · split at hs
                · simp at hs
                · simp only [Option.some.injEq, Prod.mk.injEq] at hs
                  rw [← hs.2]
                  exact h
              · simp at hs
            · simp only [Option.some.injEq, Prod.mk.injEq] at hs
              rw [← hs.2]
              exact h
          · simp only [Option.some.injEq, Prod.mk.injEq] at hs
            rw [← hs.2]
            exact h
  · intro d o2 e2 hs
    unfold Output.new_line at hs
    try dsimp only at hs
    split at hs
    · simp at hs
    · split at hs
      · simp at hs
      · rename_i e3 hins
        simp only [Option.some.injEq, Prod.mk.injEq] at hs
        rw [← hs.2, insert_erow_some _ _ _ _ hins]
        exact insertAt_ne_nil _ _ _
  · intro r h1 h2
    unfold Output.delete_line EditorRows.num_rows EditorRows.clear_erow
    dsimp only
    rw [if_pos ⟨h2, by simp [h1]⟩]
    rw [h1, h2]
    rfl

/-- Witness for C3: dd on the single-row buffer ["a"]. -/
theorem buffer_never_empty_witness :
    (Output.delete_line output0 erowsA).2.rows ≠ [] ∧
    (Output.delete_line output0 erowsA).2.rows = [[]] :=
  ⟨(buffer_never_empty output0 erowsA (by decide)).1,
   (buffer_never_empty output0 erowsA (by decide)).2.2.2.2.2 (strRaw ("a")) rfl rfl⟩

/-- A single Normal- or Insert-mode `mv` succeeds from any in-bounds row
and lands with the row in bounds and the column clamped to the
destination row's mode bound. -/
theorem mv_preserves_bounds (c : CursorController) (dir : Direction) (e : EditorRows)
    (mode : Mode) (hm : mode = .Normal ∨ mode = .Insert)
    (hcy : c.cy < e.rows.length) :
    ∃ c2, c.mv dir e mode = some c2 ∧ c2.cy < e.rows.length ∧
      c2.cx ≤ rowBound mode (e.rows.getD c2.cy []) := by
  rcases hm with rfl | rfl
  all_goals (
    unfold CursorController.mv
    rw [List.getElem?_eq_getElem hcy]
    dsimp only
    cases dir
    · have h1 : c.cy - 1 < e.rows.length := by omega
      rw [List.getElem?_eq_getElem h1]
      exact ⟨_, rfl, h1, by rw [List.getD_eq_getElem _ _ h1]; exact Nat.min_le_right _ _⟩
    · by_cases hd : c.cy < e.rows.length - 1
      · rw [if_pos hd]
        have h1 : c.cy + 1 < e.rows.length := by omega
        rw [List.getElem?_eq_getElem h1]
        exact ⟨_, rfl, h1, by rw [List.getD_eq_getElem _ _ h1]; exact Nat.min_le_right _ _⟩
      · rw [if_neg hd]
        rw [List.getElem?_eq_getElem hcy]
        exact ⟨_, rfl, hcy, by rw [List.getD_eq_getElem _ _ hcy]; exact Nat.min_le_right _ _⟩
    · rw [List.getElem?_eq_getElem hcy]
      exact ⟨_, rfl, hcy, by rw [List.getD_eq_getElem _ _ hcy]; exact Nat.min_le_right _ _⟩
    · split_ifs with h1 h2 <;>
        (rw [List.getElem?_eq_getElem hcy]
         exact ⟨_, rfl, hcy, by rw [List.getD_eq_getElem _ _ hcy]; exact Nat.min_le_right _ _⟩))

/-- Claim C4: for every sequence of cursor motions in Normal or Insert
mode over a nonempty buffer, starting from an in-bounds cursor the whole
sequence succeeds, the cursor row stays within the buffer, and after each
motion the column is clamped to the destination row's mode bound (at most
len - 1, saturating at 0, in Normal mode; at most len in Insert mode);
since the sequence is arbitrary, every intermediate state satisfies the
same bounds. -/
theorem mv_seq_cursor_in_bounds (ds : List Direction) (mode : Mode) (e : EditorRows)
    (c : CursorController) (hm : mode = .Normal ∨ mode = .Insert)
    (hcy : c.cy < e.rows.length)
    (hcx : c.cx ≤ rowBound mode (e.rows.getD c.cy [])) :
    ∃ c2, mvSeq ds e mode c = some c2 ∧ c2.cy < e.rows.length ∧
      c2.cx ≤ rowBound mode (e.rows.getD c2.cy []) := by
  induction ds generalizing c with
  | nil => exact ⟨c, rfl, hcy, hcx⟩
  | cons d ds1 ih =>
    obtain ⟨c1, h1, h2, h3⟩ := mv_preserves_bounds c d e mode hm hcy
    obtain ⟨c2, h4, h5, h6⟩ := ih c1 h2 h3
    refine ⟨c2, ?_, h5, h6⟩
    unfold mvSeq
    rw [h1]
    exact h4

/-- Witness for C4: a concrete motion sequence over ["abc", "def"]. -/
theorem mv_seq_cursor_in_bounds_witness :
    ∃ c2, mvSeq [.Down, .Right, .Right, .Up, .Left] erowsAbcDef .Normal cursor0 = some c2 ∧
      c2.cy < erowsAbcDef.rows.length ∧
      c2.cx ≤ rowBound .Normal (erowsAbcDef.rows.getD c2.cy []) :=
  mv_seq_cursor_in_bounds [.Down, .Right, .Right, .Up, .Left] .Normal erowsAbcDef cursor0
    (Or.inl rfl) (by decide) (by decide)

/-- A char split never yields an empty piece list. -/
theorem splitOnChar_ne_nil (sep : Char) (l : Raw) : splitOnChar sep l ≠ [] := by
  induction l with
  | nil => simp [splitOnChar]
  | cons c cs ih =>
    simp only [splitOnChar]
    split
    · simp
    · split
      · simp
      · simp

/-- Splitting content free of the separator yields the single piece. -/
theorem splitOnChar_of_not_mem (sep : Char) (l : Raw) (h : sep ∉ l) :
    splitOnChar sep l = [l] := by
  induction l with
  | nil => rfl
  | cons c cs ih =>
    rw [List.mem_cons, not_or] at h
    have hc : ¬(c = sep) := fun hh => h.1 hh.symm
    rw [splitOnChar, if_neg hc, ih h.2]

/-- Splitting peels off a leading separator-free piece. -/
theorem splitOnChar_append (sep : Char) (r t : Raw) (h : sep ∉ r) :
    splitOnChar sep (r ++ sep :: t) = r :: splitOnChar sep t := by
  induction r with
  | nil => simp [splitOnChar]
  | cons c cs ih =>
    rw [List.mem_cons, not_or] at h
    have hc : ¬(c = sep) := fun hh => h.1 hh.symm
    rw [List.cons_append, splitOnChar, if_neg hc, ih h.2]

/-- Reading back a newline join: under the conditions the code can honour
(no newline inside a line, no carriage return ending a non-final line, a
nonempty final line), str::lines inverts the join, and the joined contents
are nonempty. -/
theorem strLines_joinWith (rows : List Raw) (hne : rows ≠ [])
    (hnl : ∀ r ∈ rows, '\n' ∉ r)
    (hcr : ∀ r ∈ rows.dropLast, r.getLast? ≠ some '\r')
    (hlast : rows.getLast? ≠ some []) :
    strLines (joinWith '\n' rows) = rows ∧ joinWith '\n' rows ≠ [] := by
  induction rows with
  | nil => cases hne rfl
  | cons r rs ih =>
    cases rs with
    | nil =>
      have hr : r ≠ [] := by
        intro hh
        exact hlast (by simp [hh])
      have hnl1 : '\n' ∉ r := hnl r (by simp)
      constructor
      · rw [show joinWith '\n' [r] = r from rfl, strLines,
          splitOnChar_of_not_mem _ _ hnl1]
        simp [procPieces, hr]
      · simpa using hr
    | cons p ps =>
      have hlast1 : (p :: ps).getLast? ≠ some [] := by
        rwa [List.getLast?_cons_cons] at hlast
      have hnl1 : ∀ x ∈ p :: ps, '\n' ∉ x := fun x hx => hnl x (List.mem_cons_of_mem _ hx)
      have hcr1 : ∀ x ∈ (p :: ps).dropLast, x.getLast? ≠ some '\r' := by
        intro x hx
        apply hcr
        rw [List.dropLast_cons_of_ne_nil (by simp : p :: ps ≠ [])]
        exact List.mem_cons_of_mem _ hx
      obtain ⟨ih1, ih2⟩ := ih (by simp) hnl1 hcr1 hlast1
      have hjoin : joinWith '\n' (r :: p :: ps) = r ++ '\n' :: joinWith '\n' (p :: ps) := rfl
      have hrcr : r.getLast? ≠ some '\r' := by
        apply hcr
        rw [List.dropLast_cons_of_ne_nil (by simp : p :: ps ≠ [])]
        simp
      have hstrip : stripCr r = r := by rw [stripCr, if_neg hrcr]
      constructor
      · rw [hjoin, strLines, splitOnChar_append _ _ _ (hnl r (by simp))]
        obtain ⟨q, qs, hq⟩ := List.exists_cons_of_ne_nil (splitOnChar_ne_nil '\n' (joinWith '\n' (p :: ps)))
        rw [hq, procPieces, hstrip]
        rw [strLines, hq] at ih1
        rw [ih1]
        simp
      · simp [hjoin]

/-- Amended claim C6: for every nonempty buffer whose lines contain no
newline, in which no line before the last ends with a carriage return,
and whose last line is nonempty (or the buffer is the single empty line),
saving (joining the raw lines with single newlines) and loading the
written contents yields exactly the original sequence of raw lines. -/
theorem save_load_roundtrip_amended (rows : List Raw) (hne : rows ≠ [])
    (hnl : ∀ r ∈ rows, '\n' ∉ r)
    (hcr : ∀ r ∈ rows.dropLast, r.getLast? ≠ some '\r')
    (hlast : rows.getLast? ≠ some [] ∨ rows = [[]]) :
    rowsFromContents (joinWith '\n' rows) = rows := by
  rcases hlast with h | h
  · obtain ⟨h1, h2⟩ := strLines_joinWith rows hne hnl hcr h
    rw [rowsFromContents, if_neg h2, h1]
  · rw [h]
    rfl

/-- Witness for amended C6: the buffer ["ab", "cd"] round-trips. -/
theorem save_load_roundtrip_amended_witness :
    rowsFromContents (joinWith '\n' [strRaw ("ab"), strRaw ("cd")]) =
      [strRaw ("ab"), strRaw ("cd")] :=
  save_load_roundtrip_amended [strRaw ("ab"), strRaw ("cd")]
    (by decide) (by decide) (by decide) (Or.inl (by decide))

/-- Amended claim C8: in Insert mode, for every buffer and every row index
greater than 0 whose raw content is nonempty, Backspace with the cursor at
column 0 of that row appends the row's full raw content to the end of the
previous row, removes the row, and places the cursor on the previous row
at the former join point (the previous row's old length), bumping the
dirty counter. -/
theorem backspace_join_amended (o : Output) (e : EditorRows)
    (hcy0 : 0 < o.c_ctrl.cy) (hcy : o.c_ctrl.cy < e.rows.length)
    (hcx : o.c_ctrl.cx = 0)
    (hrow : e.rows.getD o.c_ctrl.cy [] ≠ []) :
    Output.delete_char o e .Insert =
      some ({ o with
                c_ctrl := { o.c_ctrl with
                              cx := (e.rows.getD (o.c_ctrl.cy - 1) []).length,
                              cy := o.c_ctrl.cy - 1 },
                dirty := o.dirty + 1 },
            { e with rows := (e.rows.eraseIdx o.c_ctrl.cy).set (o.c_ctrl.cy - 1)
                               (e.rows.getD (o.c_ctrl.cy - 1) [] ++
                                 e.rows.getD o.c_ctrl.cy []) }) := by
  have hcy1 : o.c_ctrl.cy - 1 < e.rows.length := by omega
  have hget : e.rows[o.c_ctrl.cy]? = some (e.rows.getD o.c_ctrl.cy []) := by
    rw [List.getD_eq_getElem _ _ hcy]
    exact List.getElem?_eq_getElem hcy
  have hget1 : e.rows[o.c_ctrl.cy - 1]? = some (e.rows.getD (o.c_ctrl.cy - 1) []) := by
    rw [List.getD_eq_getElem _ _ hcy1]
    exact List.getElem?_eq_getElem hcy1
  have hjoin : e.join_adj_erows o.c_ctrl.cy =
      some { e with rows := (e.rows.eraseIdx o.c_ctrl.cy).set (o.c_ctrl.cy - 1)
                              (e.rows.getD (o.c_ctrl.cy - 1) [] ++
                                e.rows.getD o.c_ctrl.cy []) } := by
    unfold EditorRows.join_adj_erows
    rw [if_neg (by omega : ¬o.c_ctrl.cy = 0), hget]
    dsimp only
    rw [List.getElem?_eraseIdx_of_lt _ _ _ (by omega), hget1]
  have hcond : ¬((e.rows.getD o.c_ctrl.cy []).length = 0 ∧ Mode.Insert ≠ Mode.Command) := by
    rintro ⟨h0, _⟩
    exact hrow (List.eq_nil_of_length_eq_zero h0)
  have hgt : o.c_ctrl.cy > 0 := hcy0
  unfold Output.delete_char
  rw [hget]
  dsimp only
  rw [if_neg hcond]
  rw [hcx]
  rw [if_neg (by decide : ¬(0 : Nat) > 0), if_pos hgt, hget1, hjoin]

/-- Witness for amended C8: buffer ["abc", "def"], cursor at row 1
column 0. -/
theorem backspace_join_amended_witness :
    Output.delete_char outputAtRow1 erowsAbcDef .Insert =
      some ({ outputAtRow1 with
                c_ctrl := { outputAtRow1.c_ctrl with
                              cx := (erowsAbcDef.rows.getD (outputAtRow1.c_ctrl.cy - 1) []).length,
                              cy := outputAtRow1.c_ctrl.cy - 1 },
                dirty := outputAtRow1.dirty + 1 },
            { erowsAbcDef with rows :=
                                 (erowsAbcDef.rows.eraseIdx outputAtRow1.c_ctrl.cy).set
                                   (outputAtRow1.c_ctrl.cy - 1)
                                   (erowsAbcDef.rows.getD (outputAtRow1.c_ctrl.cy - 1) [] ++
                                     erowsAbcDef.rows.getD outputAtRow1.c_ctrl.cy []) }) :=
  backspace_join_amended outputAtRow1 erowsAbcDef (by decide) (by decide) rfl (by decide)

/-- Claim C10: entering Command mode clears the pending command string to
absent; pressing Enter with no command typed executes the empty command,
which sets the danger-level message "No command found", does not quit
(quit flag false), and returns the editor to Normal mode. -/
theorem enter_on_empty_command (fs : SaveOracle) (ed ed1 : Editor)
    (h1 : ed.change_mode .Command = some ed1)
    (hcy : ed.output.c_ctrl.cy < ed.e_rows.rows.length) :
    ed1.output.cmd = none ∧
    ∃ ed2, ed1.handle_command_press fs .enter = some (.ok (false, ed2)) ∧
      ed2.mode = .Normal ∧
      ed2.output.cmd_msg =
        some { content := strRaw ("No command found"), level := .Danger } := by
  have hed1 : ed1 = { ed with
      mode := .Command,
      output := ((ed.output.reset_cmd_cursor).clear_stt_msg).clear_cmd_msg.clear_cmd } := by
    unfold Editor.change_mode at h1
    injection h1 with h
    exact h.symm
  subst hed1
  refine ⟨rfl, ?_⟩
  obtain ⟨c2, hmv, hb1, hb2⟩ :=
    mv_preserves_bounds { ed.output.c_ctrl with cmdx := 1 } .Left ed.e_rows .Normal
      (Or.inl rfl) hcy
  unfold Editor.handle_command_press
  have hexec : Editor.exec_cmd fs
      { ed with
          mode := .Command,
          output := ((ed.output.reset_cmd_cursor).clear_stt_msg).clear_cmd_msg.clear_cmd } =
      .ok (false,
        Editor.with_cmd_msg
          { ed with
              mode := .Command,
              output := ((ed.output.reset_cmd_cursor).clear_stt_msg).clear_cmd_msg.clear_cmd }
          (strRaw ("No command found")) .Danger) := rfl
  rw [hexec]
  dsimp only [Editor.with_cmd_msg, Output.set_cmd_msg, Output.reset_cmd_cursor,
    Output.clear_stt_msg, Output.clear_cmd_msg, Output.clear_cmd]
  unfold Editor.change_mode Output.move_cursor
  rw [hmv]
  exact ⟨_, rfl, rfl, rfl⟩

/-- Witness for C10: Command mode entered from a plain Normal-mode editor
over ["ab"], then Enter. -/
theorem enter_on_empty_command_witness :
    editorCmdEntered.output.cmd = none ∧
    ∃ ed2, editorCmdEntered.handle_command_press fsOk .enter = some (.ok (false, ed2)) ∧
      ed2.mode = .Normal ∧
      ed2.output.cmd_msg =
        some { content := strRaw ("No command found"), level := .Danger } :=
  enter_on_empty_command fsOk (mkEditor .Normal output0 erowsAB) editorCmdEntered
    rfl (by decide)

end Sage

